import Mathlib

/-!
Shallow embedding of the gqlify Firestore data source
(`packages/gqlify-firestore/src/index.ts`) and the `ManyToMany` relation
variant, together with proofs of the specified properties.

Documents are modelled as association lists from field names to values;
the Firestore instance (shared by every `FirestoreDataSource`, since the
code reaches it through the global `admin` app singleton) is a list of
`(collection, docId, doc)` entries.  Fallible operations (a thrown
`TypeError` / Firestore client error) return `Option`, with `none` for a
fault.
-/

namespace Gqlify

/-- A Firestore field value, restricted to the shapes the embedded code
manipulates: strings (ids), booleans (embed "present" markers), arrays of
possibly-null ids (`targetSideIds`), and nested maps (embed fields). -/
inductive Value where
  | vstr  : String → Value
  | vbool : Bool → Value
  | varr  : List (Option String) → Value
  | vmap  : List (String × Value) → Value

/-- A document: field name → value, insertion-ordered as in a JS object. -/
abbrev Doc := List (String × Value)

/-- The Firestore instance: `(collection, docId, doc)` entries. -/
abbrev Store := List (String × String × Doc)

/-- First-match association lookup (JS property read / lodash `get`). -/
def assocLookup {α : Type} : List (String × α) → String → Option α
  | [], _ => none
  | (k', v) :: rest, k => if k' = k then some v else assocLookup rest k

/-- JS property assignment `map[k] = v`: overwrite in place if the key
exists, else append. -/
def assocSet {α : Type} : List (String × α) → String → α → List (String × α)
  | [], k, v => [(k, v)]
  | (k', v') :: rest, k, v =>
      if k' = k then (k, v) :: rest else (k', v') :: assocSet rest k v

/-- Reading `db.collection(c).doc(i).get()`: the document, if it exists. -/
def getDoc : Store → String → String → Option Doc
  | [], _, _ => none
  | (c', i', d) :: rest, c, i =>
      if c' = c ∧ i' = i then some d else getDoc rest c i

/-- Write (create or replace) the document at `(c, i)`. -/
def setDoc : Store → String → String → Doc → Store
  | [], c, i, d => [(c, i, d)]
  | (c', i', d') :: rest, c, i, d =>
      if c' = c ∧ i' = i then (c, i, d) :: rest
      else (c', i', d') :: setDoc rest c i d

/-- Firestore `ref.delete()`: remove the document at `(c, i)` (idempotent). -/
def removeDoc : Store → String → String → Store
  | [], _, _ => []
  | (c', i', d) :: rest, c, i =>
      if c' = c ∧ i' = i then removeDoc rest c i
      else (c', i', d) :: removeDoc rest c i

/-- The documents of collection `c`, in store order (a collection scan). -/
def collDocs (st : Store) (c : String) : List Doc :=
  (st.filter (fun e => e.1 = c)).map (fun e => e.2.2)

/-! ### Mutations (`@gqlify/server` Mutation shape, as consumed here) -/

/-- The array-operation operators declared by the server package. -/
inductive ArrayOperator where
  | set : ArrayOperator
  | add : ArrayOperator
  | remove : ArrayOperator
deriving DecidableEq

/-- One `{fieldName, operator, value}` array-operation directive. -/
structure ArrayOperation where
  fieldName : String
  operator : ArrayOperator
  value : Value

/-- A mutation: the scalar-data snapshot (`getData()`) plus the sequence of
array operations (`getArrayOperations()`). -/
structure Mutation where
  data : List (String × Value)
  arrayOps : List ArrayOperation

/-- Accessor `Mutation.getData()`. -/
def Mutation.getData (m : Mutation) : List (String × Value) := m.data

/-- Embeds `FirestoreDataSource.transformMutation`: start from `getData()`, then
for each array operation overwrite `payload[fieldName] = value` when the
operator is `set`, returning early (ignoring the operation) otherwise. -/
def transformMutation (m : Mutation) : List (String × Value) :=
  m.arrayOps.foldl
    (fun payload op =>
      if op.operator = ArrayOperator.set then
        assocSet payload op.fieldName op.value
      else payload)
    m.getData

/-! ### Where clauses, update, delete -/

/-- A `Where` clause: field name → (operator name → constraint value).
Only string-valued constraints appear in the operations embedded here. -/
abbrev Where := List (String × List (String × String))

/-- The JS expression `where.id.eq`: `none` models the thrown fault
(`TypeError` on `where.id` being undefined, or the Firestore client
rejecting `doc(undefined)` when `eq` is missing). -/
def whereIdEq (w : Where) : Option String :=
  (assocLookup w "id").bind (fun clause => assocLookup clause "eq")

/-- Firestore `ref.update(payload)`: field-by-field assignment onto the document. -/
def applyPayload (d : Doc) (payload : List (String × Value)) : Doc :=
  payload.foldl (fun acc kv => assocSet acc kv.1 kv.2) d

/-- Embeds `FirestoreDataSource.update`: transform the mutation; an empty payload
returns immediately (no write, no fault); otherwise dereference
`where.id.eq` (faulting if absent) and `ref.update` the document, which the
Firestore client rejects (`none`) when the document does not exist. -/
def update (st : Store) (collection : String) (w : Where) (m : Mutation) :
    Option Store :=
  let payload := transformMutation m
  if payload.isEmpty then some st
  else
    match whereIdEq w with
    | none => none
    | some i =>
        match getDoc st collection i with
        | none => none
        | some d => some (setDoc st collection i (applyPayload d payload))

/-- Embeds `FirestoreDataSource.delete`: dereference `where.id.eq` (faulting if
absent) and delete the document (idempotent in Firestore). -/
def delete (st : Store) (collection : String) (w : Where) : Option Store :=
  (whereIdEq w).map (fun i => removeDoc st collection i)

/-! ### Lookups -/

/-- Embeds `FirestoreDataSource.findOneById`, as used internally by the relation
resolution code: `none` for a non-existent document. -/
def findOneById (st : Store) (collection i : String) : Option Doc :=
  getDoc st collection i

/-- The distinct absent sentinels observable from lookup operations:
JS `undefined`, JS `null`, a single record, a list of records. -/
inductive FindResult where
  | rundefined : FindResult
  | rnull : FindResult
  | rone : Doc → FindResult
  | rmany : List Doc → FindResult

/-- Embeds `FirestoreDataSource.findOneById` at the interface: `return;` (JS
`undefined`) when the document does not exist. -/
def findOneByIdJs (st : Store) (collection i : String) : FindResult :=
  match getDoc st collection i with
  | none => FindResult.rundefined
  | some d => FindResult.rone d

/-- Firestore `collection.where(k, '==', v).get()` with a string operand:
the documents of the collection whose field `k` holds exactly the string
`v` (missing fields and non-string values never match). -/
def whereEqStr (st : Store) (collection k v : String) : List Doc :=
  (collDocs st collection).filter
    (fun d =>
      match assocLookup d k with
      | some (Value.vstr s) => s == v
      | _ => false)

/-- Embeds `FirestoreDataSource.findOneByEmbedId`: `null` when the snapshot is
empty, else the first matching document. -/
def findOneByEmbedId (st : Store) (collection foreignKey foreignId : String) :
    FindResult :=
  match whereEqStr st collection foreignKey foreignId with
  | [] => FindResult.rnull
  | d :: _ => FindResult.rone d

/-- Embeds `FirestoreDataSource.findManyByEmbedId`: `null` when the snapshot is
empty, else all matching documents. -/
def findManyByEmbedId (st : Store) (collection foreignKey foreignId : String) :
    FindResult :=
  let ms := whereEqStr st collection foreignKey foreignId
  if ms.isEmpty then FindResult.rnull else FindResult.rmany ms

/-! ### Embed payload builders -/

/-- A value in an embed merge patch: `true`, or the
`admin.firestore.FieldValue.delete()` deletion marker. -/
inductive PatchValue where
  | ptrue : PatchValue
  | pdelete : PatchValue
deriving DecidableEq

/-- Embeds `FirestoreDataSource.addEmbedIds`: reduce the ids into a patch object
mapping each key `` `${foreignKey}.${id}` `` to `true`. -/
def addEmbedIds (foreignKey : String) (ids : List String) :
    List (String × PatchValue) :=
  ids.foldl
    (fun map i => assocSet map (foreignKey ++ "." ++ i) PatchValue.ptrue) []

/-- Embeds `FirestoreDataSource.removeEmbedIds`: reduce the ids into a patch
object mapping each key `` `${foreignKey}.${id}` `` to the
`FieldValue.delete()` marker. -/
def removeEmbedIds (foreignKey : String) (ids : List String) :
    List (String × PatchValue) :=
  ids.foldl
    (fun map i => assocSet map (foreignKey ++ "." ++ i) PatchValue.pdelete) []

/-! ### Many-to-many relation storage -/

/-- The name `` `_${sourceSideName}_${targetSideName}` `` of the relation table
(collection) name. -/
def relTbl (src tgt : String) : String := "_" ++ src ++ "_" ++ tgt

/-- The array stored under a field, Firestore array-transform view: a
missing or non-array field behaves as the empty array. -/
def getArr (v : Option Value) : List (Option String) :=
  match v with
  | some (Value.varr l) => l
  | _ => []

/-- Firestore `FieldValue.arrayUnion(x)` applied to field `k` of a
document: append `x` at the end unless already present; a missing or
non-array field is replaced by `[x]`. -/
def arrayUnionDoc (d : Doc) (k x : String) : Doc :=
  let l := getArr (assocLookup d k)
  assocSet d k (Value.varr (if some x ∈ l then l else l ++ [some x]))

/-- Firestore `FieldValue.arrayRemove(x)` applied to field `k`: remove all
occurrences of `x`; a missing or non-array field becomes the empty array. -/
def arrayRemoveDoc (d : Doc) (k x : String) : Doc :=
  assocSet d k
    (Value.varr ((getArr (assocLookup d k)).filter (fun o => o ≠ some x)))

/-- Embeds `FirestoreDataSource.addIdToManyRelation`: `set`-merge an
`arrayUnion(targetSideId)` of `targetSideIds` onto the relation-table
document keyed by the source id (creating the document if missing). -/
def addIdToManyRelation (st : Store) (src tgt sid tid : String) : Store :=
  let c := relTbl src tgt
  setDoc st c sid (arrayUnionDoc ((getDoc st c sid).getD []) "targetSideIds" tid)

/-- Embeds `FirestoreDataSource.removeIdFromManyRelation`: `set`-merge an
`arrayRemove(targetSideId)` of `targetSideIds` onto the relation-table
document keyed by the source id. -/
def removeIdFromManyRelation (st : Store) (src tgt sid tid : String) : Store :=
  let c := relTbl src tgt
  setDoc st c sid
    (arrayRemoveDoc ((getDoc st c sid).getD []) "targetSideIds" tid)

/-- Embeds `FirestoreDataSource.findManyFromManyRelation`: read the
relation-table document; a missing document or a lodash-`isEmpty`
`targetSideIds` yields `[]`; an array resolves each non-nil id through
`findOneById` on this data source's own collection; a non-empty
non-array value faults (`.filter` is not a function), modelled as `none`. -/
def findManyFromManyRelation (st : Store) (selfColl src tgt sid : String) :
    Option (List (Option Doc)) :=
  match getDoc st (relTbl src tgt) sid with
  | none => some []
  | some d =>
      match assocLookup d "targetSideIds" with
      | none => some []
      | some (Value.varr ids) =>
          if ids.isEmpty then some []
          else some ((ids.filterMap (fun o => o)).map
            (fun i => findOneById st selfColl i))
      | some (Value.vstr s) => if s.isEmpty then some [] else none
      | some (Value.vbool _) => some []
      | some (Value.vmap l) => if l.isEmpty then some [] else none

/-! ### The ManyToMany relation (`src/relation/manyToMany.ts`) -/

/-- What a `ManyToMany` relation reads from a participating `Model`: its
singular naming and its data source's backing collection. -/
structure ModelRef where
  name : String
  coll : String

/-- The `ManyToMany` relation: the two models and the field names. -/
structure ManyToMany where
  modelA : ModelRef
  modelB : ModelRef
  modelAField : String
  modelBField : String

/-- Embeds `ManyToMany.addId`: add `modelBId` to model A's join record in
`` `_${A}_${B}` `` (via model B's data source), then add `modelAId` to
model B's join record in `` `_${B}_${A}` `` (via model A's data source);
both writes land on the shared Firestore instance. -/
def ManyToMany.addId (rel : ManyToMany) (st : Store) (modelAId modelBId : String) :
    Store :=
  addIdToManyRelation
    (addIdToManyRelation st rel.modelA.name rel.modelB.name modelAId modelBId)
    rel.modelB.name rel.modelA.name modelBId modelAId

/-- Embeds `ManyToMany.removeId`: remove `modelBId` from model A's join record,
then remove `modelAId` from model B's join record. -/
def ManyToMany.removeId (rel : ManyToMany) (st : Store)
    (modelAId modelBId : String) : Store :=
  removeIdFromManyRelation
    (removeIdFromManyRelation st rel.modelA.name rel.modelB.name modelAId
      modelBId)
    rel.modelB.name rel.modelA.name modelBId modelAId

/-- Embeds `ManyToMany.joinModelA`: resolve model-A records for `modelBId` through
model A's data source over relation table `` `_${B}_${A}` ``, then drop
unresolvable (nil) records. -/
def ManyToMany.joinModelA (rel : ManyToMany) (st : Store) (modelBId : String) :
    Option (List Doc) :=
  (findManyFromManyRelation st rel.modelA.coll rel.modelB.name
      rel.modelA.name modelBId).map
    (fun records =>
      if records.isEmpty then [] else records.filterMap (fun r => r))

/-- Embeds `ManyToMany.joinModelB`: resolve model-B records for `modelAId` through
model B's data source over relation table `` `_${A}_${B}` ``, then drop
unresolvable (nil) records. -/
def ManyToMany.joinModelB (rel : ManyToMany) (st : Store) (modelAId : String) :
    Option (List Doc) :=
  (findManyFromManyRelation st rel.modelB.coll rel.modelA.name
      rel.modelB.name modelAId).map
    (fun records =>
      if records.isEmpty then [] else records.filterMap (fun r => r))

/-! ### Helper lemmas about the join arrays -/

/-- The `targetSideIds` array stored at document `(c, i)` (empty when the
document or the field is missing or not an array). -/
def joinIds (st : Store) (c i : String) : List (Option String) :=
  getArr (assocLookup ((getDoc st c i).getD []) "targetSideIds")

/-- The `targetSideIds` field at `(c, i)` is present and an array. -/
def fieldIsArr (st : Store) (c i : String) : Prop :=
  ∃ ids, assocLookup ((getDoc st c i).getD []) "targetSideIds" =
    some (Value.varr ids)

/-- Every document of collection `coll` carries its own document key in its
`id` field — the invariant `create` maintains by back-filling `id`. -/
def idWellFormed (st : Store) (coll : String) : Prop :=
  ∀ k d, getDoc st coll k = some d → assocLookup d "id" = some (Value.vstr k)

/-- A `Where` clause consisting of exactly one `id` equality constraint. -/
def idOnlyWhere (i : String) : Where := [("id", [("eq", i)])]

/-- The payload described by the spec for `transformMutation`: the scalar
data snapshot with, for each array operation whose operator is `set`, the
named field overwritten wholesale; operations with any other operator
contribute nothing.  (Spec-side definition, to be compared with
`transformMutation`.) -/
def specPayload (m : Mutation) : List (String × Value) :=
  (m.arrayOps.filter (fun op => op.operator == ArrayOperator.set)).foldl
    (fun payload op => assocSet payload op.fieldName op.value) m.getData

/-- The spec's membership criterion for an embedded relation: the record's
map field `foreignKey` contains `foreignId` as a key.  (Spec-side
definition, to be compared with what `findOneByEmbedId` filters on.) -/
def embedHasKey (d : Doc) (foreignKey foreignId : String) : Bool :=
  match assocLookup d foreignKey with
  | some (Value.vmap m) => m.any (fun e => e.1 == foreignId)
  | _ => false

/-! ### Concrete fixtures used by the witnesses and the counterexample -/

/-- A model-A record with id `a1`. -/
def docA1 : Doc := [("id", Value.vstr "a1")]

/-- A model-B record with id `b1`. -/
def docB1 : Doc := [("id", Value.vstr "b1")]

/-- A store holding one record per model collection and no relation
tables. -/
def twoRecordStore : Store := [("as", "a1", docA1), ("bs", "b1", docB1)]

/-- A many-to-many relation between the models backed by `as` and `bs`. -/
def exRel : ManyToMany :=
  { modelA := { name := "amodel", coll := "as" }
    modelB := { name := "bmodel", coll := "bs" }
    modelAField := "bees"
    modelBField := "ays" }

/-- A record whose embedded map field `tags` holds the foreign id `x` as a
key mapped to the `true` present marker — the exact shape the
`addEmbedIds` merge patch `{"tags.x": true}` produces in Firestore. -/
def embedDoc : Doc :=
  [("id", Value.vstr "r1"), ("tags", Value.vmap [("x", Value.vbool true)])]

/-- A store whose `posts` collection holds only `embedDoc`. -/
def embedStore : Store := [("posts", "r1", embedDoc)]

/-- A relation-table store for the dangling-id scenario: the join record
for `b1` references `a1`, a deleted id `gone`, and `a2`; only `a1` and
`a2` resolve in collection `as`. -/
def danglingStore : Store :=
  [("_bmodel_amodel", "b1",
     [("targetSideIds",
        Value.varr [some "a1", some "gone", some "a2"])]),
   ("as", "a1", docA1),
   ("as", "a2", [("id", Value.vstr "a2")])]

/-- A mutation whose only field uses the (unimplemented) `add` array
operator, so its transformed payload is empty. -/
def addOnlyMutation : Mutation :=
  { data := []
    arrayOps := [{ fieldName := "tags"
                   operator := ArrayOperator.add
                   value := Value.vstr "x" }] }

/-- A mutation carrying one scalar field and no array operations. -/
def nameMutation : Mutation :=
  { data := [("name", Value.vstr "bob")], arrayOps := [] }

/-! ### Lemmas -/

@[simp] theorem assocLookup_nil {α : Type} (k : String) :
    assocLookup ([] : List (String × α)) k = none := rfl

theorem assocLookup_assocSet_self {α : Type} (l : List (String × α))
    (k : String) (v : α) : assocLookup (assocSet l k v) k = some v := by
  induction l with
  | nil => simp [assocSet, assocLookup]
  | cons hd tl ih =>
      obtain ⟨k', v'⟩ := hd
      by_cases h : k' = k <;> simp [assocSet, assocLookup, h, ih]

theorem assocLookup_assocSet_other {α : Type} (l : List (String × α))
    (k k' : String) (v : α) (hne : k' ≠ k) :
    assocLookup (assocSet l k v) k' = assocLookup l k' := by
  induction l with
  | nil => simp [assocSet, assocLookup, Ne.symm hne]
  | cons hd tl ih =>
      obtain ⟨k₀, v₀⟩ := hd
      by_cases h : k₀ = k
      · subst h; simp [assocSet, assocLookup, Ne.symm hne]
      · simp only [assocSet, if_neg h]
        by_cases h' : k₀ = k' <;> simp [assocLookup, h', ih]

theorem mem_assocSet {α : Type} (l : List (String × α)) (k : String) (v : α)
    (e : String × α) (he : e ∈ assocSet l k v) : e ∈ l ∨ e = (k, v) := by
  induction l with
  | nil => simp [assocSet] at he; simp [he]
  | cons hd tl ih =>
      obtain ⟨k', v'⟩ := hd
      by_cases h : k' = k
      · simp [assocSet, h] at he
        rcases he with he | he
        · right; simp [he]
        · left; simp [he]
      · simp [assocSet, h] at he
        rcases he with he | he
        · left; simp [he]
        · rcases ih he with h1 | h1
          · left; simp [h1]
          · right; exact h1

theorem getDoc_setDoc_self (st : Store) (c i : String) (d : Doc) :
    getDoc (setDoc st c i d) c i = some d := by
  induction st with
  | nil => simp [setDoc, getDoc]
  | cons hd tl ih =>
      obtain ⟨c', i', d'⟩ := hd
      by_cases h : c' = c ∧ i' = i <;> simp [setDoc, getDoc, h, ih]

theorem getDoc_setDoc_other (st : Store) (c i c' i' : String) (d : Doc)
    (hne : ¬ (c' = c ∧ i' = i)) :
    getDoc (setDoc st c i d) c' i' = getDoc st c' i' := by
  induction st with
  | nil =>
      have : ¬ (c = c' ∧ i = i') := by
        intro ⟨h1, h2⟩; exact hne ⟨h1.symm, h2.symm⟩
      simp [setDoc, getDoc, this]
  | cons hd tl ih =>
      obtain ⟨c₀, i₀, d₀⟩ := hd
      by_cases h : c₀ = c ∧ i₀ = i
      · have hb : ¬ (c = c' ∧ i = i') := by
          intro ⟨h1, h2⟩; exact hne ⟨h1.symm, h2.symm⟩
        obtain ⟨hc, hi⟩ := h
        subst hc; subst hi
        simp [setDoc, getDoc, hb]
      · simp only [setDoc, if_neg h]
        by_cases h' : c₀ = c' ∧ i₀ = i' <;> simp [getDoc, h', ih]

theorem getDoc_removeDoc_self (st : Store) (c i : String) :
    getDoc (removeDoc st c i) c i = none := by
  induction st with
  | nil => simp [removeDoc, getDoc]
  | cons hd tl ih =>
      obtain ⟨c', i', d'⟩ := hd
      by_cases h : c' = c ∧ i' = i <;> simp [removeDoc, getDoc, h, ih]

theorem getDoc_removeDoc_other (st : Store) (c i c' i' : String)
    (hne : ¬ (c' = c ∧ i' = i)) :
    getDoc (removeDoc st c i) c' i' = getDoc st c' i' := by
  induction st with
  | nil => simp [removeDoc, getDoc]
  | cons hd tl ih =>
      obtain ⟨c₀, i₀, d₀⟩ := hd
      have hcc : ¬ (c = c' ∧ i = i') := by
        intro ⟨h1, h2⟩; exact hne ⟨h1.symm, h2.symm⟩
      by_cases h : c₀ = c ∧ i₀ = i
      · have h' : ¬ (c₀ = c' ∧ i₀ = i') := by
          intro ⟨h1, h2⟩; exact hne ⟨h1.symm.trans h.1, h2.symm.trans h.2⟩
        simp [removeDoc, getDoc, h, h', hcc, ih]
      · by_cases h' : c₀ = c' ∧ i₀ = i' <;>
          simp [removeDoc, getDoc, h, h', hne, hcc, ih]

@[simp] theorem getArr_varr (l : List (Option String)) :
    getArr (some (Value.varr l)) = l := rfl

theorem getDoc_addIdToManyRelation_ne (st : Store) (src tgt sid tid c i : String)
    (hc : c ≠ relTbl src tgt) :
    getDoc (addIdToManyRelation st src tgt sid tid) c i = getDoc st c i := by
  unfold addIdToManyRelation
  exact getDoc_setDoc_other _ _ _ _ _ _ (fun h => hc h.1)

theorem getDoc_removeIdFromManyRelation_ne (st : Store)
    (src tgt sid tid c i : String) (hc : c ≠ relTbl src tgt) :
    getDoc (removeIdFromManyRelation st src tgt sid tid) c i = getDoc st c i := by
  unfold removeIdFromManyRelation
  exact getDoc_setDoc_other _ _ _ _ _ _ (fun h => hc h.1)

theorem joinIds_addIdToManyRelation_self (st : Store) (src tgt sid tid : String) :
    some tid ∈ joinIds (addIdToManyRelation st src tgt sid tid) (relTbl src tgt) sid := by
  unfold joinIds addIdToManyRelation arrayUnionDoc
  rw [getDoc_setDoc_self]
  simp only [Option.getD_some, assocLookup_assocSet_self, getArr_varr]
  by_cases h : some tid ∈
      getArr (assocLookup ((getDoc st (relTbl src tgt) sid).getD []) "targetSideIds") <;>
    simp [h]

theorem joinIds_addIdToManyRelation_mono_self (st : Store)
    (src tgt sid tid : String) (x : Option String)
    (hx : x ∈ joinIds st (relTbl src tgt) sid) :
    x ∈ joinIds (addIdToManyRelation st src tgt sid tid) (relTbl src tgt) sid := by
  unfold joinIds at hx
  unfold joinIds addIdToManyRelation arrayUnionDoc
  rw [getDoc_setDoc_self]
  simp only [Option.getD_some, assocLookup_assocSet_self, getArr_varr]
  by_cases h : some tid ∈
      getArr (assocLookup ((getDoc st (relTbl src tgt) sid).getD []) "targetSideIds") <;>
    simp [h, hx]

theorem joinIds_addIdToManyRelation_mono (st : Store)
    (src tgt sid tid c i : String) (x : Option String)
    (hx : x ∈ joinIds st c i) :
    x ∈ joinIds (addIdToManyRelation st src tgt sid tid) c i := by
  by_cases h : c = relTbl src tgt ∧ i = sid
  · rw [h.1, h.2] at hx ⊢
    exact joinIds_addIdToManyRelation_mono_self st src tgt sid tid x hx
  · unfold joinIds addIdToManyRelation
    rw [getDoc_setDoc_other _ _ _ _ _ _ (fun hh => h ⟨hh.1, hh.2⟩)]
    exact hx

theorem joinIds_removeIdFromManyRelation_self (st : Store)
    (src tgt sid tid : String) :
    some tid ∉ joinIds (removeIdFromManyRelation st src tgt sid tid) (relTbl src tgt) sid := by
  unfold joinIds removeIdFromManyRelation arrayRemoveDoc
  rw [getDoc_setDoc_self]
  simp only [Option.getD_some, assocLookup_assocSet_self, getArr_varr]
  simp [List.mem_filter]

theorem joinIds_removeIdFromManyRelation_subset (st : Store)
    (src tgt sid tid c i : String) (x : Option String)
    (hx : x ∈ joinIds (removeIdFromManyRelation st src tgt sid tid) c i) :
    x ∈ joinIds st c i := by
  by_cases h : c = relTbl src tgt ∧ i = sid
  · rw [h.1, h.2] at hx ⊢
    unfold joinIds removeIdFromManyRelation arrayRemoveDoc at hx
    rw [getDoc_setDoc_self] at hx
    simp only [Option.getD_some, assocLookup_assocSet_self, getArr_varr,
      List.mem_filter] at hx
    exact hx.1
  · unfold joinIds removeIdFromManyRelation at hx
    rw [getDoc_setDoc_other _ _ _ _ _ _ (fun hh => h ⟨hh.1, hh.2⟩)] at hx
    exact hx

theorem fieldIsArr_removeIdFromManyRelation_self (st : Store)
    (src tgt sid tid : String) :
    fieldIsArr (removeIdFromManyRelation st src tgt sid tid) (relTbl src tgt) sid := by
  unfold fieldIsArr removeIdFromManyRelation arrayRemoveDoc
  rw [getDoc_setDoc_self]
  simp only [Option.getD_some, assocLookup_assocSet_self]
  exact ⟨_, rfl⟩

theorem fieldIsArr_removeIdFromManyRelation (st : Store)
    (src tgt sid tid c i : String) (h : fieldIsArr st c i) :
    fieldIsArr (removeIdFromManyRelation st src tgt sid tid) c i := by
  by_cases hc : c = relTbl src tgt ∧ i = sid
  · rw [hc.1, hc.2]
    exact fieldIsArr_removeIdFromManyRelation_self st src tgt sid tid
  · unfold fieldIsArr removeIdFromManyRelation
    rw [getDoc_setDoc_other _ _ _ _ _ _ (fun hh => hc ⟨hh.1, hh.2⟩)]
    exact h

theorem findManyFromManyRelation_some_of_mem (st : Store)
    (selfColl src tgt sid x : String) (dx : Doc)
    (hx : some x ∈ joinIds st (relTbl src tgt) sid)
    (hdx : findOneById st selfColl x = some dx) :
    ∃ rs, findManyFromManyRelation st selfColl src tgt sid = some rs ∧
      some dx ∈ rs := by
  unfold joinIds at hx
  unfold findManyFromManyRelation
  match hdoc : getDoc st (relTbl src tgt) sid with
  | none => rw [hdoc] at hx; simp [getArr] at hx
  | some d =>
      rw [hdoc] at hx
      simp only [Option.getD_some] at hx
      match hf : assocLookup d "targetSideIds" with
      | none => rw [hf] at hx; simp [getArr] at hx
      | some (Value.vstr s) => rw [hf] at hx; simp [getArr] at hx
      | some (Value.vbool b) => rw [hf] at hx; simp [getArr] at hx
      | some (Value.vmap l) => rw [hf] at hx; simp [getArr] at hx
      | some (Value.varr ids) =>
          rw [hf] at hx
          simp only [getArr_varr] at hx
          have hne : ids.isEmpty = false := by
            simp [List.isEmpty_iff, List.ne_nil_of_mem hx]
          refine ⟨(ids.filterMap (fun o => o)).map
            (fun j => findOneById st selfColl j), ?_, ?_⟩
          · simp [hf, hne]
          · rw [← hdx]
            exact List.mem_map_of_mem _
              (List.mem_filterMap.mpr ⟨some x, hx, rfl⟩)

theorem resolveRecords_mem (rs : List (Option Doc)) (dx : Doc)
    (h : some dx ∈ rs) :
    dx ∈ (if rs.isEmpty then [] else rs.filterMap (fun r => r)) := by
  have hne : rs.isEmpty = false := by
    simp [List.isEmpty_iff, List.ne_nil_of_mem h]
  rw [hne]
  simp only [Bool.false_eq_true, if_false]
  exact List.mem_filterMap.mpr ⟨some dx, h, rfl⟩

/-- C1: for ids `a`, `b` whose records exist in their models' stores (and
whose model collections are not the relation tables themselves), after
`addId({modelAId := a, modelBId := b})`, `joinModelA b` returns a
collection containing the record with id `a`, and `joinModelB a` returns a
collection containing the record with id `b`: the link written by `addId`
is visible from both sides. -/
theorem addId_bidirectional_visibility (rel : ManyToMany) (st : Store)
    (a b : String) (docA docB : Doc)
    (hA : getDoc st rel.modelA.coll a = some docA)
    (hB : getDoc st rel.modelB.coll b = some docB)
    (hA1 : rel.modelA.coll ≠ relTbl rel.modelA.name rel.modelB.name)
    (hA2 : rel.modelA.coll ≠ relTbl rel.modelB.name rel.modelA.name)
    (hB1 : rel.modelB.coll ≠ relTbl rel.modelA.name rel.modelB.name)
    (hB2 : rel.modelB.coll ≠ relTbl rel.modelB.name rel.modelA.name) :
    (∃ l, rel.joinModelA (rel.addId st a b) b = some l ∧ docA ∈ l) ∧
    (∃ l, rel.joinModelB (rel.addId st a b) a = some l ∧ docB ∈ l) := by
  constructor
  · obtain ⟨rs, hrs, hm⟩ := findManyFromManyRelation_some_of_mem
      (rel.addId st a b) rel.modelA.coll rel.modelB.name rel.modelA.name b a
      docA
      (joinIds_addIdToManyRelation_self _ _ _ _ _)
      (by
        show getDoc _ rel.modelA.coll a = some docA
        unfold ManyToMany.addId
        rw [getDoc_addIdToManyRelation_ne _ _ _ _ _ _ _ hA2,
          getDoc_addIdToManyRelation_ne _ _ _ _ _ _ _ hA1]
        exact hA)
    refine ⟨if rs.isEmpty then [] else rs.filterMap (fun r => r), ?_,
      resolveRecords_mem rs docA hm⟩
    unfold ManyToMany.joinModelA
    rw [hrs]
    rfl
  · obtain ⟨rs, hrs, hm⟩ := findManyFromManyRelation_some_of_mem
      (rel.addId st a b) rel.modelB.coll rel.modelA.name rel.modelB.name a b
      docB
      (joinIds_addIdToManyRelation_mono _ _ _ _ _ _ _ _
        (joinIds_addIdToManyRelation_self st rel.modelA.name rel.modelB.name
          a b))
      (by
        show getDoc _ rel.modelB.coll b = some docB
        unfold ManyToMany.addId
        rw [getDoc_addIdToManyRelation_ne _ _ _ _ _ _ _ hB2,
          getDoc_addIdToManyRelation_ne _ _ _ _ _ _ _ hB1]
        exact hB)
    refine ⟨if rs.isEmpty then [] else rs.filterMap (fun r => r), ?_,
      resolveRecords_mem rs docB hm⟩
    unfold ManyToMany.joinModelB
    rw [hrs]
    rfl

/-- Witness for C1 at a concrete input: both records exist beforehand, and
after `addId` each join sees the other side's record. -/
theorem addId_bidirectional_visibility_witness :
    getDoc twoRecordStore exRel.modelA.coll "a1" = some docA1 ∧
    getDoc twoRecordStore exRel.modelB.coll "b1" = some docB1 ∧
    ((∃ l, exRel.joinModelA (exRel.addId twoRecordStore "a1" "b1") "b1" =
        some l ∧ docA1 ∈ l) ∧
     (∃ l, exRel.joinModelB (exRel.addId twoRecordStore "a1" "b1") "a1" =
        some l ∧ docB1 ∈ l)) :=
  ⟨rfl, rfl,
    addId_bidirectional_visibility exRel twoRecordStore "a1" "b1" docA1 docB1
      rfl rfl (by decide) (by decide) (by decide) (by decide)⟩

/-- C3: if the join record for `b` holds an id array containing `x`, and
`findOneById` on model A's collection is absent for `x`, then `joinModelA`
completes without error and returns exactly the resolution of the array
with `x`'s entry excluded — dangling ids degrade to absent results. -/
theorem joinModelA_excludes_dangling (rel : ManyToMany) (st : Store)
    (b x : String) (l1 l2 : List (Option String)) (d : Doc)
    (hd : getDoc st (relTbl rel.modelB.name rel.modelA.name) b = some d)
    (hf : assocLookup d "targetSideIds" =
      some (Value.varr (l1 ++ some x :: l2)))
    (hx : findOneById st rel.modelA.coll x = none) :
    rel.joinModelA st b = some
      ((((l1 ++ l2).filterMap (fun o => o)).map
        (fun i => findOneById st rel.modelA.coll i)).filterMap
          (fun r => r)) := by
  unfold ManyToMany.joinModelA findManyFromManyRelation
  rw [hd]
  simp only [hf]
  have hne : (l1 ++ some x :: l2).isEmpty = false := by
    simp [List.isEmpty_iff]
  rw [hne]
  simp only [Bool.false_eq_true, if_false, Option.map_some]
  have harr : (l1 ++ some x :: l2).filterMap (fun o => o) =
      l1.filterMap (fun o => o) ++ x :: l2.filterMap (fun o => o) := by
    simp [List.filterMap_append]
  rw [harr]
  have hres : ((l1.filterMap (fun o => o) ++ x :: l2.filterMap (fun o => o)).map
        (fun i => findOneById st rel.modelA.coll i)) =
      (l1.filterMap (fun o => o)).map (fun i => findOneById st rel.modelA.coll i)
        ++ none :: (l2.filterMap (fun o => o)).map
          (fun i => findOneById st rel.modelA.coll i) := by
    simp [hx]
  rw [hres]
  simp [List.filterMap_append]

/-- Witness for C3: the join record for `b1` references `a1`, the dangling
`gone`, and `a2`; the join resolves to exactly the two surviving records. -/
theorem joinModelA_excludes_dangling_witness :
    getDoc danglingStore (relTbl exRel.modelB.name exRel.modelA.name) "b1" =
      some [("targetSideIds",
        Value.varr [some "a1", some "gone", some "a2"])] ∧
    findOneById danglingStore exRel.modelA.coll "gone" = none ∧
    exRel.joinModelA danglingStore "b1" = some
      (((([some "a1"] ++ [some "a2"] :
          List (Option String)).filterMap (fun o => o)).map
        (fun i => findOneById danglingStore exRel.modelA.coll i)).filterMap
          (fun r => r)) :=
  ⟨rfl, rfl,
    joinModelA_excludes_dangling exRel danglingStore "b1" "gone"
      [some "a1"] [some "a2"]
      [("targetSideIds", Value.varr [some "a1", some "gone", some "a2"])]
      rfl rfl rfl⟩

theorem findManyFromManyRelation_no_id (st : Store)
    (selfColl src tgt sid a : String)
    (hWF : idWellFormed st selfColl)
    (hnot : some a ∉ joinIds st (relTbl src tgt) sid)
    (harr : fieldIsArr st (relTbl src tgt) sid) :
    ∃ rs, findManyFromManyRelation st selfColl src tgt sid = some rs ∧
      ∀ dd ∈ (if rs.isEmpty then [] else rs.filterMap (fun r => r)),
        assocLookup dd "id" ≠ some (Value.vstr a) := by
  obtain ⟨ids, hf⟩ := harr
  unfold joinIds at hnot
  unfold findManyFromManyRelation
  match hdoc : getDoc st (relTbl src tgt) sid with
  | none => rw [hdoc] at hf; simp at hf
  | some d =>
      rw [hdoc] at hf hnot
      simp only [Option.getD_some] at hf hnot
      rw [hf] at hnot
      simp only [getArr_varr] at hnot
      simp only [hf]
      by_cases he : ids.isEmpty = true
      · rw [if_pos he]
        exact ⟨[], rfl, by simp⟩
      · rw [if_neg he]
        refine ⟨(ids.filterMap (fun o => o)).map
          (fun j => findOneById st selfColl j), rfl, ?_⟩
        intro dd hdd
        by_cases hre : ((ids.filterMap (fun o => o)).map
            (fun j => findOneById st selfColl j)).isEmpty = true
        · rw [if_pos hre] at hdd
          simp at hdd
        · rw [if_neg hre] at hdd
          obtain ⟨o, ho, hoeq⟩ := List.mem_filterMap.mp hdd
          obtain ⟨j, hj, hjeq⟩ := List.mem_map.mp ho
          obtain ⟨oj, hoj, hojeq⟩ := List.mem_filterMap.mp hj
          have hja : j ≠ a := by
            intro hja
            exact hnot (by rw [← hja, ← hojeq]; exact hoj)
          have hres : getDoc st selfColl j = some dd := by
            have := hjeq.trans hoeq
            exact this
          rw [hWF j dd hres]
          intro hcontr
          exact hja (Value.vstr.inj (Option.some.inj hcontr))

/-- C4: after `addId {a, b}` followed by `removeId {a, b}` (on stores whose
model records carry their own key as `id`, with model collections distinct
from the relation tables), `joinModelA b` no longer contains a record with
id `a` and `joinModelB a` no longer contains a record with id `b`:
`removeId` undoes both directions of the link written by `addId`. -/
theorem removeId_undoes_addId (rel : ManyToMany) (st : Store) (a b : String)
    (hWFA : idWellFormed st rel.modelA.coll)
    (hWFB : idWellFormed st rel.modelB.coll)
    (hA1 : rel.modelA.coll ≠ relTbl rel.modelA.name rel.modelB.name)
    (hA2 : rel.modelA.coll ≠ relTbl rel.modelB.name rel.modelA.name)
    (hB1 : rel.modelB.coll ≠ relTbl rel.modelA.name rel.modelB.name)
    (hB2 : rel.modelB.coll ≠ relTbl rel.modelB.name rel.modelA.name) :
    (∃ l, rel.joinModelA (rel.removeId (rel.addId st a b) a b) b = some l ∧
      ∀ dd ∈ l, assocLookup dd "id" ≠ some (Value.vstr a)) ∧
    (∃ l, rel.joinModelB (rel.removeId (rel.addId st a b) a b) a = some l ∧
      ∀ dd ∈ l, assocLookup dd "id" ≠ some (Value.vstr b)) := by
  have hframeA : ∀ k, getDoc (rel.removeId (rel.addId st a b) a b)
      rel.modelA.coll k = getDoc st rel.modelA.coll k := by
    intro k
    unfold ManyToMany.removeId ManyToMany.addId
    rw [getDoc_removeIdFromManyRelation_ne _ _ _ _ _ _ _ hA2,
      getDoc_removeIdFromManyRelation_ne _ _ _ _ _ _ _ hA1,
      getDoc_addIdToManyRelation_ne _ _ _ _ _ _ _ hA2,
      getDoc_addIdToManyRelation_ne _ _ _ _ _ _ _ hA1]
  have hframeB : ∀ k, getDoc (rel.removeId (rel.addId st a b) a b)
      rel.modelB.coll k = getDoc st rel.modelB.coll k := by
    intro k
    unfold ManyToMany.removeId ManyToMany.addId
    rw [getDoc_removeIdFromManyRelation_ne _ _ _ _ _ _ _ hB2,
      getDoc_removeIdFromManyRelation_ne _ _ _ _ _ _ _ hB1,
      getDoc_addIdToManyRelation_ne _ _ _ _ _ _ _ hB2,
      getDoc_addIdToManyRelation_ne _ _ _ _ _ _ _ hB1]
  constructor
  · obtain ⟨rs, hrs, hprop⟩ := findManyFromManyRelation_no_id
      (rel.removeId (rel.addId st a b) a b) rel.modelA.coll
      rel.modelB.name rel.modelA.name b a
      (fun k d h => hWFA k d ((hframeA k).symm.trans h))
      (joinIds_removeIdFromManyRelation_self _ _ _ _ _)
      (fieldIsArr_removeIdFromManyRelation_self _ _ _ _ _)
    refine ⟨if rs.isEmpty then [] else rs.filterMap (fun r => r), ?_, hprop⟩
    unfold ManyToMany.joinModelA
    rw [hrs]
    rfl
  · have hnotB : some b ∉ joinIds (rel.removeId (rel.addId st a b) a b)
        (relTbl rel.modelA.name rel.modelB.name) a := by
      intro hmem
      have hsub : some b ∈ joinIds
          (removeIdFromManyRelation (rel.addId st a b) rel.modelA.name
            rel.modelB.name a b)
          (relTbl rel.modelA.name rel.modelB.name) a :=
        joinIds_removeIdFromManyRelation_subset
          (removeIdFromManyRelation (rel.addId st a b) rel.modelA.name
            rel.modelB.name a b)
          rel.modelB.name rel.modelA.name b a
          (relTbl rel.modelA.name rel.modelB.name) a (some b) hmem
      exact joinIds_removeIdFromManyRelation_self (rel.addId st a b)
        rel.modelA.name rel.modelB.name a b hsub
    have harrB : fieldIsArr (rel.removeId (rel.addId st a b) a b)
        (relTbl rel.modelA.name rel.modelB.name) a :=
      fieldIsArr_removeIdFromManyRelation
        (removeIdFromManyRelation (rel.addId st a b) rel.modelA.name
          rel.modelB.name a b)
        rel.modelB.name rel.modelA.name b a
        (relTbl rel.modelA.name rel.modelB.name) a
        (fieldIsArr_removeIdFromManyRelation_self (rel.addId st a b)
          rel.modelA.name rel.modelB.name a b)
    obtain ⟨rs, hrs, hprop⟩ := findManyFromManyRelation_no_id
      (rel.removeId (rel.addId st a b) a b) rel.modelB.coll
      rel.modelA.name rel.modelB.name a b
      (fun k d h => hWFB k d ((hframeB k).symm.trans h))
      hnotB harrB
    refine ⟨if rs.isEmpty then [] else rs.filterMap (fun r => r), ?_, hprop⟩
    unfold ManyToMany.joinModelB
    rw [hrs]
    rfl

/-- Witness for C4 at a concrete input: the two-record store is
well-formed, and after `addId` then `removeId` with the same pair neither
join contains the other side's id. -/
theorem removeId_undoes_addId_witness :
    idWellFormed twoRecordStore exRel.modelA.coll ∧
    idWellFormed twoRecordStore exRel.modelB.coll ∧
    ((∃ l, exRel.joinModelA
        (exRel.removeId (exRel.addId twoRecordStore "a1" "b1") "a1" "b1")
        "b1" = some l ∧
        ∀ dd ∈ l, assocLookup dd "id" ≠ some (Value.vstr "a1")) ∧
     (∃ l, exRel.joinModelB
        (exRel.removeId (exRel.addId twoRecordStore "a1" "b1") "a1" "b1")
        "a1" = some l ∧
        ∀ dd ∈ l, assocLookup dd "id" ≠ some (Value.vstr "b1"))) := by
  have hWFA : idWellFormed twoRecordStore "as" := by
    intro k d h
    by_cases hk : k = "a1"
    · subst hk
      have hd : d = docA1 := by
        simpa [twoRecordStore, getDoc] using h.symm
      rw [hd]
      rfl
    · exfalso
      simp [twoRecordStore, getDoc, Ne.symm hk] at h
  have hWFB : idWellFormed twoRecordStore "bs" := by
    intro k d h
    by_cases hk : k = "b1"
    · subst hk
      have hd : d = docB1 := by
        simpa [twoRecordStore, getDoc] using h.symm
      rw [hd]
      rfl
    · exfalso
      simp [twoRecordStore, getDoc, Ne.symm hk] at h
  exact ⟨hWFA, hWFB,
    removeId_undoes_addId exRel twoRecordStore "a1" "b1" hWFA hWFB
      (by decide) (by decide) (by decide) (by decide)⟩

/-- C5: for every where clause and every mutation whose transformed payload
is empty, `update` performs no storage write, leaves every stored record
unchanged (it returns the very same store), and completes successfully. -/
theorem update_empty_payload_noop (st : Store) (collection : String)
    (w : Where) (m : Mutation) (h : transformMutation m = []) :
    update st collection w m = some st := by
  unfold update
  rw [h]
  rfl

/-- Witness for C5: a mutation whose only field uses the unimplemented
`add` array operator transforms to the empty payload, and `update` with it
— even under a where clause with no `id` field — returns the store
untouched. -/
theorem update_empty_payload_noop_witness :
    transformMutation addOnlyMutation = [] ∧
    update twoRecordStore "as" [("name", [("eq", "x")])] addOnlyMutation =
      some twoRecordStore :=
  ⟨rfl, update_empty_payload_noop twoRecordStore "as"
    [("name", [("eq", "x")])] addOnlyMutation rfl⟩

theorem foldl_set_filter (ops : List ArrayOperation) :
    ∀ init : List (String × Value),
      ops.foldl
        (fun payload op =>
          if op.operator = ArrayOperator.set then
            assocSet payload op.fieldName op.value
          else payload) init =
      (ops.filter (fun op => op.operator == ArrayOperator.set)).foldl
        (fun payload op => assocSet payload op.fieldName op.value) init := by
  induction ops with
  | nil => intro init; rfl
  | cons op rest ih =>
      intro init
      by_cases h : op.operator = ArrayOperator.set <;>
        simp [List.filter_cons, h, ih]

/-- C7: the storage payload produced for create/update equals the
mutation's scalar data snapshot with, for each array operation whose
operator is `set`, the named field overwritten wholesale; operations with
any other operator contribute nothing (`transformMutation` refines the
spec-side `specPayload`). -/
theorem transformMutation_eq_specPayload (m : Mutation) :
    transformMutation m = specPayload m :=
  foldl_set_filter m.arrayOps m.getData

/-- C8: with a where clause consisting of exactly one `id` equality
constraint, `update` (with a non-empty payload, on an existing record) and
`delete` succeed and affect exactly the record whose id equals the
constraint's value, leaving all other records unchanged. -/
theorem update_delete_by_id_only (st : Store) (coll i : String)
    (m : Mutation) (d : Doc)
    (hne : transformMutation m ≠ [])
    (hd : getDoc st coll i = some d) :
    (∃ st', update st coll (idOnlyWhere i) m = some st' ∧
      getDoc st' coll i = some (applyPayload d (transformMutation m)) ∧
      ∀ c j, ¬ (c = coll ∧ j = i) → getDoc st' c j = getDoc st c j) ∧
    (∃ st2, delete st coll (idOnlyWhere i) = some st2 ∧
      getDoc st2 coll i = none ∧
      ∀ c j, ¬ (c = coll ∧ j = i) → getDoc st2 c j = getDoc st c j) := by
  have hwid : whereIdEq (idOnlyWhere i) = some i := rfl
  have hempty : (transformMutation m).isEmpty = false := by
    simp [List.isEmpty_iff, hne]
  constructor
  · refine ⟨setDoc st coll i (applyPayload d (transformMutation m)),
      ?_, ?_, ?_⟩
    · simp [update, hempty, hwid, hd]
    · exact getDoc_setDoc_self _ _ _ _
    · intro c j hcj
      exact getDoc_setDoc_other _ _ _ _ _ _ hcj
  · refine ⟨removeDoc st coll i, rfl, getDoc_removeDoc_self _ _ _, ?_⟩
    intro c j hcj
    exact getDoc_removeDoc_other _ _ _ _ _ hcj

/-- Witness for C8 at a concrete input: a one-field mutation applied at
id `a1` updates exactly that record, and `delete` removes exactly it. -/
theorem update_delete_by_id_only_witness :
    transformMutation nameMutation ≠ [] ∧
    getDoc twoRecordStore "as" "a1" = some docA1 ∧
    ((∃ st', update twoRecordStore "as" (idOnlyWhere "a1") nameMutation =
        some st' ∧
      getDoc st' "as" "a1" =
        some (applyPayload docA1 (transformMutation nameMutation)) ∧
      ∀ c j, ¬ (c = "as" ∧ j = "a1") →
        getDoc st' c j = getDoc twoRecordStore c j) ∧
    (∃ st2, delete twoRecordStore "as" (idOnlyWhere "a1") = some st2 ∧
      getDoc st2 "as" "a1" = none ∧
      ∀ c j, ¬ (c = "as" ∧ j = "a1") →
        getDoc st2 c j = getDoc twoRecordStore c j)) :=
  ⟨by simp [transformMutation, Mutation.getData, nameMutation], rfl,
    update_delete_by_id_only twoRecordStore "as" "a1" nameMutation docA1
      (by simp [transformMutation, Mutation.getData, nameMutation]) rfl⟩

/-- C9: `update` (with a non-empty payload) and `delete` locate the target
solely through the `id` equality constraint of the where clause: with no
`id.eq` present they fault (`none`), and when `id.eq` is present every
other constraint in the where clause is ignored — the result coincides
with using the id-only where clause. -/
theorem where_id_sole_locator (st : Store) (coll : String) (w : Where)
    (m : Mutation) :
    (transformMutation m ≠ [] → whereIdEq w = none →
      update st coll w m = none) ∧
    (whereIdEq w = none → delete st coll w = none) ∧
    (∀ i, whereIdEq w = some i →
      update st coll w m = update st coll (idOnlyWhere i) m ∧
      delete st coll w = delete st coll (idOnlyWhere i)) := by
  refine ⟨?_, ?_, ?_⟩
  · intro hne hw
    have hempty : (transformMutation m).isEmpty = false := by
      simp [List.isEmpty_iff, hne]
    simp [update, hempty, hw]
  · intro hw
    simp [delete, hw]
  · intro i hw
    have hwid : whereIdEq (idOnlyWhere i) = some i := rfl
    constructor
    · simp [update, hw, hwid]
    · simp [delete, hw, hwid]

/-- Witness for C9: a where clause with only a `name` constraint makes
both `update` and `delete` fault, while an extra `name` constraint next to
`id.eq` changes nothing relative to the id-only clause. -/
theorem where_id_sole_locator_witness :
    update twoRecordStore "as" [("name", [("eq", "x")])] nameMutation =
      none ∧
    delete twoRecordStore "as" [("name", [("eq", "x")])] = none ∧
    (update twoRecordStore "as"
        [("id", [("eq", "a1")]), ("name", [("eq", "zed")])] nameMutation =
      update twoRecordStore "as" (idOnlyWhere "a1") nameMutation ∧
     delete twoRecordStore "as"
        [("id", [("eq", "a1")]), ("name", [("eq", "zed")])] =
      delete twoRecordStore "as" (idOnlyWhere "a1")) :=
  ⟨(where_id_sole_locator twoRecordStore "as" [("name", [("eq", "x")])]
      nameMutation).1
    (by simp [transformMutation, Mutation.getData, nameMutation]) rfl,
   (where_id_sole_locator twoRecordStore "as" [("name", [("eq", "x")])]
      nameMutation).2.1 rfl,
   (where_id_sole_locator twoRecordStore "as"
      [("id", [("eq", "a1")]), ("name", [("eq", "zed")])]
      nameMutation).2.2 "a1" rfl⟩

theorem foldl_assocSet_lookup {α : Type} (v : α) (keyf : String → String) :
    ∀ (ids : List String) (acc : List (String × α)) (k0 : String),
      assocLookup acc k0 = some v →
      assocLookup (ids.foldl (fun mp j => assocSet mp (keyf j) v) acc) k0 =
        some v := by
  intro ids
  induction ids with
  | nil => intro acc k0 h; exact h
  | cons j rest ih =>
      intro acc k0 h
      simp only [List.foldl_cons]
      apply ih
      by_cases hk : k0 = keyf j
      · rw [hk]
        exact assocLookup_assocSet_self _ _ _
      · rw [assocLookup_assocSet_other _ _ _ _ hk]
        exact h

theorem foldl_assocSet_lookup_mem {α : Type} (v : α) (keyf : String → String) :
    ∀ (ids : List String) (acc : List (String × α)) (i : String), i ∈ ids →
      assocLookup (ids.foldl (fun mp j => assocSet mp (keyf j) v) acc)
        (keyf i) = some v := by
  intro ids
  induction ids with
  | nil => intro acc i h; exact absurd h (List.not_mem_nil i)
  | cons j rest ih =>
      intro acc i h
      simp only [List.foldl_cons]
      rcases List.mem_cons.mp h with h1 | h1
      · subst h1
        exact foldl_assocSet_lookup v keyf rest _ _
          (assocLookup_assocSet_self _ _ _)
      · exact ih _ _ h1

theorem foldl_assocSet_shape {α : Type} (v : α) (keyf : String → String) :
    ∀ (ids : List String) (acc : List (String × α)) (e : String × α),
      e ∈ ids.foldl (fun mp j => assocSet mp (keyf j) v) acc →
      e ∈ acc ∨ ∃ i ∈ ids, e = (keyf i, v) := by
  intro ids
  induction ids with
  | nil => intro acc e h; exact Or.inl h
  | cons j rest ih =>
      intro acc e h
      simp only [List.foldl_cons] at h
      rcases ih _ _ h with h1 | h1
      · rcases mem_assocSet _ _ _ _ h1 with h2 | h2
        · exact Or.inl h2
        · exact Or.inr ⟨j, List.mem_cons_self _ _, h2⟩
      · obtain ⟨i, hi, he⟩ := h1
        exact Or.inr ⟨i, List.mem_cons_of_mem _ hi, he⟩

/-- C6: `addEmbedIds` returns a patch whose keys are exactly
`foreignKey.<id>` for the given ids, each mapped to `true`;
`removeEmbedIds` returns deletion markers for exactly those same keys and
no others — neither patch ever mentions a sibling key. -/
theorem embed_patches_exact (foreignKey : String) (ids : List String) :
    (∀ i ∈ ids, assocLookup (addEmbedIds foreignKey ids)
      (foreignKey ++ "." ++ i) = some PatchValue.ptrue) ∧
    (∀ e ∈ addEmbedIds foreignKey ids,
      e.2 = PatchValue.ptrue ∧ ∃ i ∈ ids, e.1 = foreignKey ++ "." ++ i) ∧
    (∀ i ∈ ids, assocLookup (removeEmbedIds foreignKey ids)
      (foreignKey ++ "." ++ i) = some PatchValue.pdelete) ∧
    (∀ e ∈ removeEmbedIds foreignKey ids,
      e.2 = PatchValue.pdelete ∧ ∃ i ∈ ids, e.1 = foreignKey ++ "." ++ i) := by
  refine ⟨?_, ?_, ?_, ?_⟩
  · intro i hi
    exact foldl_assocSet_lookup_mem PatchValue.ptrue
      (fun j => foreignKey ++ "." ++ j) ids [] i hi
  · intro e he
    rcases foldl_assocSet_shape PatchValue.ptrue
        (fun j => foreignKey ++ "." ++ j) ids [] e he with h | h
    · exact absurd h (List.not_mem_nil e)
    · obtain ⟨i, hi, he2⟩ := h
      exact ⟨by rw [he2], i, hi, by rw [he2]⟩
  · intro i hi
    exact foldl_assocSet_lookup_mem PatchValue.pdelete
      (fun j => foreignKey ++ "." ++ j) ids [] i hi
  · intro e he
    rcases foldl_assocSet_shape PatchValue.pdelete
        (fun j => foreignKey ++ "." ++ j) ids [] e he with h | h
    · exact absurd h (List.not_mem_nil e)
    · obtain ⟨i, hi, he2⟩ := h
      exact ⟨by rw [he2], i, hi, by rw [he2]⟩

/-- Witness for C6 at `addEmbedIds "tags" ["x", "y"]`: both dotted keys
are present with the expected markers. -/
theorem embed_patches_exact_witness :
    assocLookup (addEmbedIds "tags" ["x", "y"]) "tags.x" =
      some PatchValue.ptrue ∧
    assocLookup (removeEmbedIds "tags" ["x", "y"]) "tags.y" =
      some PatchValue.pdelete :=
  ⟨(embed_patches_exact "tags" ["x", "y"]).1 "x" (by simp),
   (embed_patches_exact "tags" ["x", "y"]).2.2.1 "y" (by simp)⟩

/-- C2 counterevaluation: a record whose embedded map field `tags` holds
`x` as a key (exactly the shape the `addEmbedIds` patch `{"tags.x": true}`
produces) is in the store, yet `findOneByEmbedId`/`findManyByEmbedId`
return `null`, because the code filters on the scalar equality
`tags == "x"` instead of map-key presence. -/
theorem embed_lookup_misses_map_key :
    getDoc embedStore "posts" "r1" = some embedDoc ∧
    embedHasKey embedDoc "tags" "x" = true ∧
    assocLookup (addEmbedIds "tags" ["x"]) "tags.x" = some PatchValue.ptrue ∧
    findOneByEmbedId embedStore "posts" "tags" "x" = FindResult.rnull ∧
    findManyByEmbedId embedStore "posts" "tags" "x" = FindResult.rnull :=
  ⟨rfl, rfl, rfl, rfl, rfl⟩

/-- C10: when nothing matches, `findManyByEmbedId` and `findOneByEmbedId`
return `null` (not an empty collection), `findOneById` returns
`undefined`, and `findManyFromManyRelation` returns the empty list — the
absent sentinel is not uniform across lookup operations. -/
theorem absent_sentinels_differ (st : Store)
    (coll k v i selfColl src tgt sid : String)
    (hembed : whereEqStr st coll k v = [])
    (hid : getDoc st coll i = none)
    (hjoin : getDoc st (relTbl src tgt) sid = none) :
    findManyByEmbedId st coll k v = FindResult.rnull ∧
    findOneByEmbedId st coll k v = FindResult.rnull ∧
    FindResult.rnull ≠ FindResult.rmany [] ∧
    findOneByIdJs st coll i = FindResult.rundefined ∧
    findManyFromManyRelation st selfColl src tgt sid = some [] ∧
    FindResult.rundefined ≠ FindResult.rnull := by
  refine ⟨?_, ?_, ?_, ?_, ?_, ?_⟩
  · simp [findManyByEmbedId, hembed]
  · simp [findOneByEmbedId, hembed]
  · intro h
    cases h
  · simp [findOneByIdJs, hid]
  · simp [findManyFromManyRelation, hjoin]
  · intro h
    cases h

/-- Witness for C10 on the empty store. -/
theorem absent_sentinels_differ_witness :
    whereEqStr ([] : Store) "posts" "tags" "x" = [] ∧
    getDoc ([] : Store) "posts" "r1" = none ∧
    getDoc ([] : Store) (relTbl "amodel" "bmodel") "a1" = none ∧
    (findManyByEmbedId ([] : Store) "posts" "tags" "x" = FindResult.rnull ∧
     findOneByEmbedId ([] : Store) "posts" "tags" "x" = FindResult.rnull ∧
     FindResult.rnull ≠ FindResult.rmany [] ∧
     findOneByIdJs ([] : Store) "posts" "r1" = FindResult.rundefined ∧
     findManyFromManyRelation ([] : Store) "posts" "amodel" "bmodel" "a1" =
       some [] ∧
     FindResult.rundefined ≠ FindResult.rnull) :=
  ⟨rfl, rfl, rfl,
    absent_sentinels_differ [] "posts" "tags" "x" "r1" "posts" "amodel"
      "bmodel" "a1" rfl rfl rfl⟩

end Gqlify

